import Mathlib

/-!
Verification development for the action-normalization and state-mutation layer
of a job-application tracker (the Action Normalizer, Action Applicator,
Record Store and Schema Store).

Shallow embedding conventions:
* TypeScript union string types become Lean inductives; `undefined`-able
  values become `Option`.
* The browser `localStorage`-backed stores become an explicit `Store` value
  threaded through the operations; a `saveJobs`/`loadJobs` round-trip on
  well-formed data is the identity, so the store operations act on the
  in-memory collection directly.  The load-side tolerance of malformed
  stored text is modelled separately at the JSON level (`loadJobsM`,
  `loadSchemaM`).
* `new Date().toISOString()` timestamps are passed in as a `now : String`
  parameter; `crypto.randomUUID()` / `Math.random()` fresh-identifier
  generation is modelled by a deterministic counter supply threaded through
  the operations (identifiers are opaque to every operation).
* JavaScript object literals / JSON objects are association lists
  `List (String × _)`; duplicate keys follow `JSON.parse` semantics
  (the last binding wins, see `getField`), and property assignment /
  object spread is `objUpd`.
-/

namespace AppTracker

/-- Job status union from `src/types.ts`. -/
inductive JobStatus where
  | applied
  | rejected
  | interviewed
  | offer
  | accepted
  | archived
deriving DecidableEq, Repr

/-- Custom-field value type union from `src/types.ts`. -/
inductive CustomFieldType where
  | text
  | number
  | date
  | url
deriving DecidableEq, Repr

/-- `CustomField` from `src/types.ts`. -/
structure CustomField where
  id : String
  name : String
  type : CustomFieldType
deriving DecidableEq, Repr

/-- `TimelineEventType` from `src/types.ts`. -/
inductive TimelineEventType where
  | created
  | status_changed
  | note_added
  | tag_added
  | applied_date_updated
  | custom_updated
deriving DecidableEq, Repr

/-- `TimelineEvent` from `src/types.ts`. -/
structure TimelineEvent where
  id : String
  type : TimelineEventType
  label : String
  createdAt : String
deriving DecidableEq, Repr

/-- A scalar custom-field value: `string | number | null`.  Numeric values
are opaque payloads here (no arithmetic is ever performed on them), so they
are carried as `Int`. -/
inductive CustomValue where
  | str (s : String)
  | num (n : Int)
  | null
deriving DecidableEq, Repr

/-- A `Record<string, string | number | null>` custom-values map, as a
JS-object-like association list. -/
abbrev CustomMap := List (String × CustomValue)

/-- `Job` from `src/types.ts`.  `timeline`, `createdAt` and `updatedAt` are
optional in the TypeScript type; for records handled by the store operations
`timeline` is always an array (see `ensureTimeline` in the source, whose
non-array branch is exercised only on raw loaded data, modelled by
`ensureTimelineJson`), so it is carried as a plain list here. -/
structure Job where
  id : String
  company : String
  role : String
  status : JobStatus
  appliedDate : Option String
  tags : List String
  notes : List String
  custom : CustomMap
  timeline : List TimelineEvent
  createdAt : Option String
  updatedAt : Option String
deriving DecidableEq, Repr

/-- `JobInput` from the jobs store source. -/
structure JobInput where
  company : String
  role : String
  status : Option JobStatus
  appliedDate : Option String
  tags : Option (List String)
  notes : Option (List String)
  custom : Option CustomMap
deriving DecidableEq, Repr

/-- `Partial<JobInput>` as consumed by `updateJob`: every field optional
(`undefined` = `none`; `stripUndefined` in the source drops the `none`s
before spreading, which is the `Option.getD` pattern below). -/
structure JobUpdate where
  company : Option String
  role : Option String
  status : Option JobStatus
  appliedDate : Option String
  tags : Option (List String)
  notes : Option (List String)
  custom : Option CustomMap
deriving DecidableEq, Repr

/-- The two persisted collections (the records document and the schema
document) plus the fresh-identifier supply. -/
structure Store where
  jobs : List Job
  schema : List CustomField
  counter : Nat
deriving DecidableEq, Repr

/-! ## JS object helpers -/

/-- Property lookup on a JS-object-like association list with `JSON.parse`
duplicate-key semantics: the last binding for a key wins; `none` is
`undefined`. -/
def getField {α : Type} : List (String × α) → String → Option α
  | [], _ => none
  | p :: rest, key =>
    match getField rest key with
    | some r => some r
    | none => if p.1 = key then some p.2 else none

/-- Property assignment / object-spread override `{...fs, k: v}`: replaces
the binding for `k` in place if present, appends otherwise. -/
def objUpd {α : Type} (fs : List (String × α)) (k : String) (v : α) :
    List (String × α) :=
  if fs.any (fun p => p.1 = k) then
    fs.map (fun p => if p.1 = k then (k, v) else p)
  else
    fs ++ [(k, v)]

/-- `new Set(xs)` iteration order: first occurrence of each element, later
duplicates dropped. -/
def jsDedupAux (seen : List String) : List String → List String
  | [] => []
  | x :: xs =>
    if x ∈ seen then jsDedupAux seen xs
    else x :: jsDedupAux (x :: seen) xs

/-- `Array.from(new Set(xs))`. -/
def jsDedup (xs : List String) : List String := jsDedupAux [] xs

/-- `Set.prototype.add` on a deduplicated list: append if absent. -/
def setAdd (xs : List String) (x : String) : List String :=
  if x ∈ xs then xs else xs ++ [x]

/-- Thread the fresh-identifier counter through a `jobs.map(...)` whose
per-job function may mint timeline-event identifiers. -/
def mapCounter (f : Nat → Job → Job × Nat) : Nat → List Job → List Job × Nat
  | c, [] => ([], c)
  | c, j :: js =>
    let (j2, c2) := f c j
    let (rest, c3) := mapCounter f c2 js
    (j2 :: rest, c3)

/-- JS `String.prototype.trim`: strip whitespace from both ends.
Implemented over the character list so that it evaluates by reduction
(Lean's own `String.trim` is `Substring`-based and does not). -/
def jsTrim (s : String) : String :=
  String.mk (((s.data.dropWhile Char.isWhitespace).reverse.dropWhile
    Char.isWhitespace).reverse)

/-- JS `String.prototype.toLowerCase` (ASCII case mapping, as with
`Char.toLower`), over the character list for the same reason. -/
def jsToLower (s : String) : String := String.mk (s.data.map Char.toLower)

/-! ## Schema service (`makeFieldId`, `normalizeCustomValues`) -/

/-- Characters kept by the `makeFieldId` slug regex
`[^a-z0-9一-龥]` (after lowercasing). -/
def isSlugChar (c : Char) : Bool :=
  decide (('a' ≤ c ∧ c ≤ 'z') ∨ ('0' ≤ c ∧ c ≤ '9') ∨
    (0x4e00 ≤ c.val ∧ c.val ≤ 0x9fa5))

/-- Collapse runs of dashes to a single dash (the `+` in the replacement
regex); `prevDash` records whether the previous emitted character was a
dash. -/
def collapseDashes (prevDash : Bool) : List Char → List Char
  | [] => []
  | c :: rest =>
    if c = '-' then
      if prevDash then collapseDashes true rest
      else '-' :: collapseDashes true rest
    else c :: collapseDashes false rest

/-- `makeFieldId` from the schema service: trim, lowercase, collapse
non-slug characters to single dashes, strip leading/trailing dashes,
truncate to 32 characters; if that yields the empty string, fall back to a
freshly generated identifier (`Math.random()` modelled by the counter). -/
def makeFieldId (name : String) (c : Nat) : String × Nat :=
  let lowered := jsToLower (jsTrim name)
  let mapped := lowered.data.map (fun ch => if isSlugChar ch then ch else '-')
  let collapsed := collapseDashes false mapped
  let stripped :=
    ((collapsed.dropWhile (fun ch => ch = '-')).reverse.dropWhile
      (fun ch => ch = '-')).reverse
  let base := String.mk (stripped.take 32)
  if base = "" then ("field-" ++ toString c, c + 1) else (base, c)

/-- The `byName` map lookup in `normalizeCustomValues`: a `Map` built from
lowercased field names (later duplicates overwrite earlier ones, hence the
reversed search), falling back to the key itself when unresolved. -/
def lookupFieldIdByName (schema : List CustomField) (key : String) : String :=
  match schema.reverse.find? (fun f => jsToLower f.name = jsToLower key) with
  | some f => f.id
  | none => key

/-- `normalizeCustomValues` from the schema service: translate each custom
key from "field name or id" to a canonical field id (case-insensitive name
match; unresolved keys pass through), building the result object in entry
order. -/
def normalizeCustomValues (custom : CustomMap) (schema : List CustomField) :
    CustomMap :=
  custom.foldl (fun acc kv => objUpd acc (lookupFieldIdByName schema kv.1) kv.2) []

/-! ## Record store (`jobs` service) -/

/-- `STATUS_LABELS` from the jobs store. -/
def statusLabel : JobStatus → String
  | .applied => "Applied"
  | .interviewed => "Interviewing"
  | .offer => "Offer"
  | .accepted => "Accepted"
  | .rejected => "Rejected"
  | .archived => "Archived"

/-- `createId`: fresh opaque identifier from the counter supply. -/
def createId (c : Nat) : String × Nat := ("id-" ++ toString c, c + 1)

/-- `createTimelineEvent` from the jobs store. -/
def createTimelineEvent (t : TimelineEventType) (label : String)
    (createdAt : String) (c : Nat) : TimelineEvent × Nat :=
  let (i, c2) := createId c
  ({ id := i, type := t, label := label, createdAt := createdAt }, c2)

/-- `addJob`: build the initial timeline (`created`, `status_changed`, and
`applied_date_updated` when a truthy applied date is supplied — the source
guard is JS truthiness, so an empty string counts as absent), construct the
record with defaulted fields, and prepend it to the collection.  Returns the
new record's id alongside the updated store. -/
def addJob (input : JobInput) (now : String) (st : Store) : Store × String :=
  let status := input.status.getD .applied
  let (e1, c1) := createTimelineEvent .created "Created" now st.counter
  let (e2, c2) := createTimelineEvent .status_changed (statusLabel status) now c1
  let (tl, c3) :=
    match input.appliedDate with
    | some d =>
      if d = "" then ([e1, e2], c2)
      else
        let (e3, cn) :=
          createTimelineEvent .applied_date_updated ("Applied date: " ++ d) now c2
        ([e1, e2, e3], cn)
    | none => ([e1, e2], c2)
  let (jid, c4) := createId c3
  let job : Job :=
    { id := jid
      company := input.company
      role := input.role
      status := status
      appliedDate := some (input.appliedDate.getD "")
      tags := input.tags.getD []
      notes := input.notes.getD []
      custom := input.custom.getD []
      timeline := tl
      createdAt := some now
      updatedAt := some now }
  ({ st with jobs := job :: st.jobs, counter := c4 }, jid)

/-- The per-record body of `updateJob`'s `jobs.map(...)`: merge the custom
map key-by-key, append `status_changed` / `applied_date_updated` events when
those fields actually change, then spread the `undefined`-stripped input
over the record and refresh `updatedAt`. -/
def updateJobJob (id : String) (input : JobUpdate) (now : String)
    (c : Nat) (job : Job) : Job × Nat :=
  if job.id ≠ id then (job, c)
  else
    let mergedCustom :=
      match input.custom with
      | some cm => cm.foldl (fun acc kv => objUpd acc kv.1 kv.2) job.custom
      | none => job.custom
    let nextAppliedDate :=
      match input.appliedDate with
      | some d => some d
      | none => job.appliedDate
    let (tl1, c1) :=
      match input.status with
      | some stn =>
        if stn ≠ job.status then
          let (e, c2) :=
            createTimelineEvent .status_changed (statusLabel stn) now c
          (job.timeline ++ [e], c2)
        else (job.timeline, c)
      | none => (job.timeline, c)
    let (tl2, c2) :=
      match input.appliedDate with
      | some d =>
        if some d ≠ job.appliedDate then
          let (e, c3) :=
            createTimelineEvent .applied_date_updated
              ("Applied date: " ++ (if d = "" then "unknown" else d)) now c1
          (tl1 ++ [e], c3)
        else (tl1, c1)
      | none => (tl1, c1)
    ({ job with
        company := input.company.getD job.company
        role := input.role.getD job.role
        status := input.status.getD job.status
        appliedDate := nextAppliedDate
        tags := input.tags.getD job.tags
        notes := input.notes.getD job.notes
        custom := mergedCustom
        timeline := tl2
        updatedAt := some now }, c2)

/-- `updateJob`: a pure map over the collection (non-matching ids are
untouched). -/
def updateJob (id : String) (input : JobUpdate) (now : String) (st : Store) :
    Store :=
  let (jobs2, c2) := mapCounter (updateJobJob id input now) st.counter st.jobs
  { st with jobs := jobs2, counter := c2 }

/-- `deleteJob`: filter the record out. -/
def deleteJob (id : String) (st : Store) : Store :=
  { st with jobs := st.jobs.filter (fun j => j.id ≠ id) }

/-- The per-record body of `setStatus`'s `jobs.map(...)`: unchanged when the
status is already `status` (early return, no event and no `updatedAt`
refresh), otherwise append one `status_changed` event and refresh. -/
def setStatusJob (id : String) (status : JobStatus) (now : String)
    (c : Nat) (job : Job) : Job × Nat :=
  if job.id ≠ id then (job, c)
  else if job.status = status then (job, c)
  else
    let (e, c2) := createTimelineEvent .status_changed (statusLabel status) now c
    ({ job with
        status := status
        timeline := job.timeline ++ [e]
        updatedAt := some now }, c2)

/-- `setStatus` over the collection. -/
def setStatus (id : String) (status : JobStatus) (now : String) (st : Store) :
    Store :=
  let (jobs2, c2) := mapCounter (setStatusJob id status now) st.counter st.jobs
  { st with jobs := jobs2, counter := c2 }

/-- The per-record body of `addTag`'s `jobs.map(...)`: `new Set(tags).add(tag)`
for the tag list, a `tag_added` event only when the tag was not already
present, and an unconditional `updatedAt` refresh. -/
def addTagJob (id : String) (tag : String) (now : String)
    (c : Nat) (job : Job) : Job × Nat :=
  if job.id ≠ id then (job, c)
  else
    let nextTags := setAdd (jsDedup job.tags) tag
    let (tl, c2) :=
      if tag ∈ job.tags then (job.timeline, c)
      else
        let (e, c3) := createTimelineEvent .tag_added "Tag added" now c
        (job.timeline ++ [e], c3)
    ({ job with tags := nextTags, timeline := tl, updatedAt := some now }, c2)

/-- `addTag` over the collection. -/
def addTag (id : String) (tag : String) (now : String) (st : Store) : Store :=
  let (jobs2, c2) := mapCounter (addTagJob id tag now) st.counter st.jobs
  { st with jobs := jobs2, counter := c2 }

/-- The per-record body of `addNote`: append to the note history, refresh
`updatedAt`, no timeline event (intentional in the source). -/
def addNoteJob (id : String) (note : String) (now : String) (job : Job) : Job :=
  if job.id ≠ id then job
  else { job with notes := job.notes ++ [note], updatedAt := some now }

/-- `addNote` over the collection. -/
def addNote (id : String) (note : String) (now : String) (st : Store) : Store :=
  { st with jobs := st.jobs.map (addNoteJob id note now) }

/-- The per-record body of `setNote`: replace the note history with zero or
one entries (`note ? [note] : []` — JS truthiness, so the empty string also
clears). -/
def setNoteJob (id : String) (note : Option String) (now : String) (job : Job) :
    Job :=
  if job.id ≠ id then job
  else
    { job with
        notes := match note with
          | some n => if n = "" then [] else [n]
          | none => []
        updatedAt := some now }

/-- `setNote` over the collection. -/
def setNote (id : String) (note : Option String) (now : String) (st : Store) :
    Store :=
  { st with jobs := st.jobs.map (setNoteJob id note now) }

/-- The per-record body of `setCustomFieldValue`: set one key in the custom
map, append a `custom_updated` event, refresh `updatedAt`. -/
def setCustomFieldValueJob (id : String) (fieldId : String) (value : CustomValue)
    (now : String) (c : Nat) (job : Job) : Job × Nat :=
  if job.id ≠ id then (job, c)
  else
    let (e, c2) := createTimelineEvent .custom_updated "Custom updated" now c
    ({ job with
        custom := objUpd job.custom fieldId value
        timeline := job.timeline ++ [e]
        updatedAt := some now }, c2)

/-- `setCustomFieldValue` over the collection. -/
def setCustomFieldValue (id : String) (fieldId : String) (value : CustomValue)
    (now : String) (st : Store) : Store :=
  let (jobs2, c2) :=
    mapCounter (setCustomFieldValueJob id fieldId value now) st.counter st.jobs
  { st with jobs := jobs2, counter := c2 }

/-- `upsertCustomField`: derive the stable id from the name; overwrite
name/type in place when a field with that id exists, append a new field
otherwise.  Returns the id either way. -/
def upsertCustomField (name : String) (ty : CustomFieldType) (st : Store) :
    Store × String :=
  let (id, c2) := makeFieldId name st.counter
  let updated :=
    if st.schema.any (fun f => f.id = id) then
      st.schema.map (fun f => if f.id = id then { f with name := name, type := ty } else f)
    else
      st.schema ++ [{ id := id, name := name, type := ty }]
  ({ st with schema := updated, counter := c2 }, id)

/-! ## JSON values and the Action Normalizer (`ai` service) -/

/-- A parsed JSON value (the untyped assistant payload).  Numbers are
opaque payloads (no arithmetic is performed on them), carried as `Int`. -/
inductive Json where
  | null
  | bool (b : Bool)
  | num (n : Int)
  | str (s : String)
  | arr (elems : List Json)
  | obj (fields : List (String × Json))

mutual

/-- `String(item)` coercion used inside `toStringArray`.  Arrays join their
elements with commas (`null` rendering as the empty string), plain objects
render as `[object Object]`. -/
def jsToString : Json → String
  | .null => "null"
  | .bool true => "true"
  | .bool false => "false"
  | .num n => toString n
  | .str s => s
  | .arr es => String.intercalate "," (jsToStringList es)
  | .obj _ => "[object Object]"

/-- Element-wise rendering for array join, where `null` renders empty. -/
def jsToStringList : List Json → List String
  | [] => []
  | .null :: rest => "" :: jsToStringList rest
  | j :: rest => jsToString j :: jsToStringList rest

end

/-- Property access `j.key` on an arbitrary value: only plain objects have
named properties; on anything else the access yields `undefined`. -/
def jsGet (j : Json) (key : String) : Option Json :=
  match j with
  | .obj fields => getField fields key
  | _ => none

/-- The closed set of command kinds (`ACTION_TYPES`). -/
inductive AKind where
  | add_job
  | update_job
  | set_status
  | add_tag
  | add_note
  | add_custom_field
  | delete_job
deriving DecidableEq, Repr

/-- `ACTION_TYPES.has` fused with the `switch` discriminator: which command
kind, if any, a string names. -/
def kindOfString : String → Option AKind
  | "add_job" => some .add_job
  | "update_job" => some .update_job
  | "set_status" => some .set_status
  | "add_tag" => some .add_tag
  | "add_note" => some .add_note
  | "add_custom_field" => some .add_custom_field
  | "delete_job" => some .delete_job
  | _ => none

/-- The six status strings of `STATUS_TYPES`, i.e. `JobStatus` parsing. -/
def statusOfString : String → Option JobStatus
  | "applied" => some .applied
  | "rejected" => some .rejected
  | "interviewed" => some .interviewed
  | "offer" => some .offer
  | "accepted" => some .accepted
  | "archived" => some .archived
  | _ => none

/-- The status strings accepted by `STATUS_TYPES`. -/
def STATUS_STRINGS : List String :=
  ["applied", "rejected", "interviewed", "offer", "accepted", "archived"]

/-- The four field-type strings of `FIELD_TYPES`. -/
def fieldTypeOfString : String → Option CustomFieldType
  | "text" => some .text
  | "number" => some .number
  | "date" => some .date
  | "url" => some .url
  | _ => none

/-- `toText`: a non-string value yields `null`; a string is trimmed and the
empty result yields `null`. -/
def toText (v : Option Json) : Option String :=
  match v with
  | some (.str s) => if jsTrim s = "" then none else some (jsTrim s)
  | _ => none

/-- `toOptionalText`: same coercion as `toText`, yielding `undefined`
instead of `null` (both are `none` in this embedding). -/
def toOptionalText (v : Option Json) : Option String :=
  match v with
  | some (.str s) => if jsTrim s = "" then none else some (jsTrim s)
  | _ => none

/-- `toStatus`: a string that is exactly one of the six known status values,
anything else `undefined`. -/
def toStatus (v : Option Json) : Option JobStatus :=
  match v with
  | some (.str s) => statusOfString s
  | _ => none

/-- `FIELD_TYPES.has(action.fieldType) ? action.fieldType : 'text'`: any
missing, non-string or unrecognized field type falls back to `text`. -/
def fieldTypeOrText (v : Option Json) : CustomFieldType :=
  match v with
  | some (.str s) => (fieldTypeOfString s).getD .text
  | _ => .text

/-- `toStringArray`: an array is stringified element-wise and filtered for
entries with non-empty trim; a string is wrapped as a singleton (or the
empty list when blank); any other shape yields `undefined`. -/
def toStringArray (v : Option Json) : Option (List String) :=
  match v with
  | some (.arr items) =>
    some ((items.map jsToString).filter (fun s => jsTrim s ≠ ""))
  | some (.str s) => if jsTrim s = "" then some [] else some [jsTrim s]
  | _ => none

/-- `toCustom`: only a plain (non-array, non-null) object is accepted; its
entries are kept only when scalar (`string | number | null`); an entirely
empty resulting map is treated as absent. -/
def toCustom (v : Option Json) : Option CustomMap :=
  match v with
  | some (.obj fs) =>
    let m := fs.foldl
      (fun acc kv =>
        match kv.2 with
        | .null => objUpd acc kv.1 CustomValue.null
        | .str s => objUpd acc kv.1 (.str s)
        | .num n => objUpd acc kv.1 (.num n)
        | _ => acc) []
    if m.isEmpty then none else some m
  | _ => none

/-- A normalized command (`AiAction` union from the `ai` service). -/
inductive AiAction where
  | add_job (company role : String) (status : Option JobStatus)
      (appliedDate : Option String) (tags notes : Option (List String))
      (custom : Option CustomMap)
  | update_job (id : String) (company role : Option String)
      (status : Option JobStatus) (appliedDate : Option String)
      (tags notes : Option (List String)) (custom : Option CustomMap)
  | set_status (id : String) (status : JobStatus)
  | add_tag (id : String) (tag : String)
  | add_note (id : String) (note : String)
  | add_custom_field (name : String) (fieldType : CustomFieldType)
  | delete_job (id : String)
deriving DecidableEq, Repr

/-- `sanitizeAction`: per-kind field validation and coercion over the raw
candidate's fields.  Dropping is `none`. -/
def sanitizeAction (k : AKind) (fields : List (String × Json)) :
    Option AiAction :=
  match k with
  | .add_job =>
    match toText (getField fields "company"), toText (getField fields "role") with
    | some company, some role =>
      some (.add_job company role
        (toStatus (getField fields "status"))
        (toOptionalText (getField fields "appliedDate"))
        (toStringArray (getField fields "tags"))
        (toStringArray (getField fields "notes"))
        (toCustom (getField fields "custom")))
    | _, _ => none
  | .update_job =>
    match toText (getField fields "id") with
    | some id =>
      some (.update_job id
        (toOptionalText (getField fields "company"))
        (toOptionalText (getField fields "role"))
        (toStatus (getField fields "status"))
        (toOptionalText (getField fields "appliedDate"))
        (toStringArray (getField fields "tags"))
        (toStringArray (getField fields "notes"))
        (toCustom (getField fields "custom")))
    | none => none
  | .set_status =>
    match toText (getField fields "id"), toStatus (getField fields "status") with
    | some id, some status => some (.set_status id status)
    | _, _ => none
  | .add_tag =>
    match toText (getField fields "id"), toText (getField fields "tag") with
    | some id, some tag => some (.add_tag id tag)
    | _, _ => none
  | .add_note =>
    match toText (getField fields "id"), toText (getField fields "note") with
    | some id, some note => some (.add_note id note)
    | _, _ => none
  | .add_custom_field =>
    match toText (getField fields "name") with
    | some name =>
      some (.add_custom_field name (fieldTypeOrText (getField fields "fieldType")))
    | none => none
  | .delete_job =>
    match toText (getField fields "id") with
    | some id => some (.delete_job id)
    | none => none

/-- The explicit `type` discriminator of a candidate, when it is a string. -/
def directTypeOf (fields : List (String × Json)) : Option String :=
  match getField fields "type" with
  | some (.str s) => some s
  | _ => none

/-- `const {type: _ignored, ...rest} = payload`: drop the payload's own
`type` binding. -/
def removeKey (fs : List (String × Json)) (k : String) : List (String × Json) :=
  fs.filter (fun p => p.1 ≠ k)

/-- Spreading an array into an object literal copies its index properties
(keys `"0"`, `"1"`, ... — never a named action field). -/
def arrIndexFields (es : List Json) : List (String × Json) :=
  es.enum.map (fun p => (toString p.1, p.2))

/-- The tolerated malformed shape: a single-key object whose one key names a
kind, the value becoming the action payload; a non-object payload is
rejected (`typeof payload !== 'object'`), and an array payload spreads only
its index properties. -/
def singleKeyShape (fields : List (String × Json)) : Option AiAction :=
  match jsDedup (fields.map Prod.fst) with
  | [k0] =>
    match kindOfString k0 with
    | some k =>
      match getField fields k0 with
      | some (.obj payload) => sanitizeAction k (removeKey payload "type")
      | some (.arr es) => sanitizeAction k (removeKey (arrIndexFields es) "type")
      | _ => none
    | none => none
  | _ => none

/-- `normalizeAction`: non-objects are dropped (an array's `type` property
is `undefined` and its keys are numeric, so it can match neither shape);
an object with an explicit `type` naming a kind is sanitized directly,
otherwise the single-key wrapper shape is tried. -/
def normalizeAction (raw : Json) : Option AiAction :=
  match raw with
  | .obj fields =>
    match (directTypeOf fields).bind kindOfString with
    | some k => sanitizeAction k fields
    | none => singleKeyShape fields
  | _ => none

/-- `AiResponse`: optional summary plus the vetted command sequence. -/
structure AiResponseM where
  summary : Option String
  actions : List AiAction
deriving DecidableEq, Repr

/-- `normalizeAiResponse`: a non-object payload (or one without an `actions`
array) yields zero actions; candidates are normalized independently and the
dropped ones are filtered out. -/
def normalizeAiResponse (raw : Json) : AiResponseM :=
  match raw with
  | .obj fields =>
    let summary :=
      match getField fields "summary" with
      | some (.str s) => some s
      | _ => none
    let rawActions :=
      match getField fields "actions" with
      | some (.arr es) => es
      | _ => []
    { summary := summary, actions := rawActions.filterMap normalizeAction }
  | _ => { summary := none, actions := [] }

/-- Shape (a): the candidate is an object carrying an explicit string `type`
field that names one of the seven kinds. -/
def shapeA (raw : Json) : Prop :=
  ∃ fields t, raw = .obj fields ∧ directTypeOf fields = some t ∧
    (kindOfString t).isSome = true

/-- Shape (b): the candidate is an object with exactly one key, and that key
names one of the seven kinds. -/
def shapeB (raw : Json) : Prop :=
  ∃ fields k, raw = .obj fields ∧ jsDedup (fields.map Prod.fst) = [k] ∧
    (kindOfString k).isSome = true

/-! ## Action Applicator (`aiActions` service) -/

/-- One per-command outcome of the applicator. -/
structure ActionResult where
  action : AiAction
  ok : Bool
  message : String
deriving DecidableEq, Repr

/-- `allowedStatuses` from the applicator. -/
def allowedStatuses : List JobStatus :=
  [.applied, .rejected, .interviewed, .offer, .accepted, .archived]

/-- `normalizeStatus` from the applicator. -/
def normalizeStatus (status : Option JobStatus) : Option JobStatus :=
  match status with
  | none => none
  | some st => if allowedStatuses.contains st then some st else none

/-- One iteration of the applicator's `for` loop: dispatch the command to
the corresponding store operation inside `try`/`catch`, producing exactly
one result.  Every `throw new Error(msg)` reached before the store call is
the `catch` handler's `{ok: false, message: msg}`.  `!x` guards on typed
strings are emptiness checks (statuses and field types are never falsy).

The source `switch` has **no `case 'add_tag'`**, so a normalized `add_tag`
command falls into the `default` branch and reports
`Unsupported action: add_tag` without ever invoking the store's `addTag`. -/
def applyOne (fields : List CustomField) (now : String) (st : Store)
    (a : AiAction) : Store × ActionResult :=
  match a with
  | .add_job company role status appliedDate _tags notes customMap =>
    if company = "" ∨ role = "" then
      (st, { action := a, ok := false, message := "Missing company or role" })
    else
      let custom :=
        match customMap with
        | some cm => some (normalizeCustomValues cm fields)
        | none => none
      -- The source builds the `addJob` input from the command WITHOUT its
      -- `tags` field (the object literal lists company, role, status,
      -- appliedDate, notes, custom only).
      let (st2, _) := addJob
        { company := company
          role := role
          status := normalizeStatus status
          appliedDate := appliedDate
          tags := none
          notes := notes
          custom := custom } now st
      (st2, { action := a, ok := true, message := "Job added" })
  | .update_job id company role status appliedDate _tags notes customMap =>
    if id = "" then
      (st, { action := a, ok := false, message := "Missing id" })
    else
      let custom :=
        match customMap with
        | some cm => some (normalizeCustomValues cm fields)
        | none => none
      -- As for `add_job`, the `updateJob` input omits `tags`.
      let st2 := updateJob id
        { company := company
          role := role
          status := normalizeStatus status
          appliedDate := appliedDate
          tags := none
          notes := notes
          custom := custom } now st
      (st2, { action := a, ok := true, message := "Job updated" })
  | .set_status id status =>
    if id = "" then
      (st, { action := a, ok := false, message := "Missing id or status" })
    else
      match normalizeStatus (some status) with
      | none => (st, { action := a, ok := false, message := "Invalid status" })
      | some ns =>
        (setStatus id ns now st,
          { action := a, ok := true, message := "Status updated" })
  | .add_note id note =>
    if id = "" ∨ note = "" then
      (st, { action := a, ok := false, message := "Missing id or note" })
    else
      (addNote id note now st, { action := a, ok := true, message := "Note added" })
  | .add_custom_field name fieldType =>
    if name = "" then
      (st, { action := a, ok := false, message := "Missing name or fieldType" })
    else
      let (st2, _) := upsertCustomField name fieldType st
      (st2, { action := a, ok := true, message := "Field added" })
  | .delete_job id =>
    if id = "" then
      (st, { action := a, ok := false, message := "Missing id" })
    else
      (deleteJob id st, { action := a, ok := true, message := "Job deleted" })
  | .add_tag _ _ =>
    -- `default:` branch of the source switch (see the doc comment above).
    (st, { action := a, ok := false, message := "Unsupported action: add_tag" })

/-- `applyAiActions`: process the command sequence strictly sequentially,
collecting one result per command; a failed command leaves its store effects
unapplied but never prevents subsequent commands from executing.  Each
iteration's `timestamp()` is modelled by the one `now` parameter. -/
def applyAiActions (actions : List AiAction) (fields : List CustomField)
    (now : String) (st : Store) : Store × List ActionResult :=
  match actions with
  | [] => (st, [])
  | a :: rest =>
    let (st2, r) := applyOne fields now st a
    let (st3, rs) := applyAiActions rest fields now st2
    (st3, r :: rs)

/-! ## Rehydration from durable storage (`loadJobs` / `loadSchema`) -/

/-- The outcome of `localStorage.getItem` + `JSON.parse` for one stored
document: the key is absent, the stored text is unparsable (the `catch`
branch), or parsing succeeded with some JSON value. -/
inductive StoredDoc where
  | absent
  | unparsable
  | parsed (j : Json)

/-- Object spread `{...j}` of an arbitrary value: a plain object contributes
its fields, an array its index properties, anything else nothing. -/
def spreadFields : Json → List (String × Json)
  | .obj fs => fs
  | .arr es => arrIndexFields es
  | _ => []

/-- `ensureTimeline` on a raw loaded element: its `timeline` property when
that is an array, the empty array otherwise. -/
def ensureTimelineJson (j : Json) : List Json :=
  match jsGet j "timeline" with
  | some (.arr evs) => evs
  | _ => []

/-- `loadJobs`: absent or unparsable stored text yields the empty
collection, as does a parsed value that is not an array; the elements of a
parsed array are kept with their `timeline` normalized to an array. -/
def loadJobsM : StoredDoc → List Json
  | .absent => []
  | .unparsable => []
  | .parsed j =>
    match j with
    | .arr elems =>
      elems.map (fun e =>
        Json.obj (objUpd (spreadFields e) "timeline"
          (Json.arr (ensureTimelineJson e))))
    | _ => []

/-- `loadSchema`: absent or unparsable stored text yields the empty field
list; otherwise `parsed?.customFields` is returned when it is an array and
the empty list otherwise. -/
def loadSchemaM : StoredDoc → List Json
  | .absent => []
  | .unparsable => []
  | .parsed j =>
    match jsGet j "customFields" with
    | some (.arr es) => es
    | _ => []

/-- Whether a JSON value is an array (`Array.isArray`). -/
def jsIsArray : Json → Bool
  | .arr _ => true
  | _ => false

/-- Whether a loaded record element carries an array-valued `timeline`. -/
def jobHasArrayTimeline (e : Json) : Bool :=
  match jsGet e "timeline" with
  | some (.arr _) => true
  | _ => false

/-! ## Helper lemmas -/

/-- Mapping a function that fixes every element of a list is the identity. -/
theorem map_eq_self_of {α : Type} {l : List α} {f : α → α}
    (h : ∀ x ∈ l, f x = x) : l.map f = l := by
  induction l with
  | nil => rfl
  | cons a as ih =>
    simp only [List.map_cons, h a (by simp)]
    rw [ih (fun x hx => h x (by simp [hx]))]

/-- Threading the counter through a map whose body fixes every element and
never consumes fresh identifiers is the identity. -/
theorem mapCounter_eq_self {f : Nat → Job → Job × Nat} {l : List Job}
    (h : ∀ c j, j ∈ l → f c j = (j, c)) : ∀ c, mapCounter f c l = (l, c) := by
  induction l with
  | nil => intro c; rfl
  | cons a as ih =>
    intro c
    simp only [mapCounter, h c a (by simp)]
    rw [ih (fun c2 j hj => h c2 j (by simp [hj])) c]

/-- A cons binding for a different key does not affect lookup. -/
theorem getField_cons_ne {α : Type} {k key : String} (v : α)
    (fs : List (String × α)) (h : k ≠ key) :
    getField ((k, v) :: fs) key = getField fs key := by
  cases hx : getField fs key <;> simp [getField, hx, h]

/-- Lookup across an append: the later (right) document wins. -/
theorem getField_append {α : Type} (fs gs : List (String × α)) (key : String) :
    getField (fs ++ gs) key =
      match getField gs key with
      | some r => some r
      | none => getField fs key := by
  induction fs with
  | nil => cases hx : getField gs key <;> simp [getField, hx]
  | cons p rest ih =>
    rw [List.cons_append, getField, ih]
    cases hx : getField gs key <;> cases hy : getField rest key <;>
      simp [getField, hx, hy]

/-- A key bound by no entry looks up to `none`. -/
theorem getField_eq_none_of {α : Type} {fs : List (String × α)} {k : String}
    (h : ∀ p ∈ fs, p.1 ≠ k) : getField fs k = none := by
  induction fs with
  | nil => rfl
  | cons p rest ih =>
    have hr := ih (fun q hq => h q (by simp [hq]))
    simp [getField, hr, h p (by simp)]

/-- Conversely, a `none` lookup means the key is bound by no entry. -/
theorem not_key_of_getField_eq_none {α : Type} {fs : List (String × α)}
    {k : String} (h : getField fs k = none) : ∀ p ∈ fs, p.1 ≠ k := by
  induction fs with
  | nil => intro p hp; simp at hp
  | cons q rest ih =>
    intro p hp
    rw [getField] at h
    cases hx : getField rest k with
    | some r => rw [hx] at h; simp at h
    | none =>
      rw [hx] at h
      rcases List.mem_cons.mp hp with hq | hmem
      · subst hq
        intro hk
        rw [if_pos hk] at h
        simp at h
      · exact ih hx p hmem

/-- Removing a key that is not bound is the identity. -/
theorem removeKey_of_none {fs : List (String × Json)} {k : String}
    (h : getField fs k = none) : removeKey fs k = fs :=
  List.filter_eq_self.mpr (fun p hp => by
    simpa using not_key_of_getField_eq_none h p hp)

/-- Replacing every binding of a bound key yields that value on lookup. -/
theorem getField_map_replace {α : Type} (k : String) (v : α) :
    ∀ (fs : List (String × α)), fs.any (fun p => p.1 = k) = true →
      getField (fs.map (fun p => if p.1 = k then (k, v) else p)) k = some v := by
  intro fs
  induction fs with
  | nil => intro h; simp at h
  | cons p rest ih =>
    intro h
    by_cases hr : rest.any (fun q => q.1 = k)
    · have hrec := ih hr
      rw [List.map_cons, getField, hrec]
    · have hrest : ∀ q ∈ rest, q.1 ≠ k := by
        intro q hq hk
        apply hr
        exact List.any_eq_true.mpr ⟨q, hq, by simp [hk]⟩
      have hp : p.1 = k := by
        rcases List.any_eq_true.mp h with ⟨q, hq, hqk⟩
        rcases List.mem_cons.mp hq with hq1 | hq2
        · subst hq1; simpa using hqk
        · exact absurd (by simpa using hqk) (hrest q hq2)
      have hmap : rest.map (fun p => if p.1 = k then (k, v) else p) = rest :=
        map_eq_self_of (fun q hq => by simp [hrest q hq])
      rw [List.map_cons, getField, hmap, getField_eq_none_of hrest, if_pos hp]
      simp

/-- After `objUpd fs k v`, looking up `k` yields `v`. -/
theorem getField_objUpd {α : Type} (fs : List (String × α)) (k : String)
    (v : α) : getField (objUpd fs k v) k = some v := by
  unfold objUpd
  by_cases h : fs.any (fun p => p.1 = k)
  · rw [if_pos h]
    exact getField_map_replace k v fs h
  · rw [if_neg h, getField_append]
    simp [getField]

/-- Membership in a dedup-with-seen-set traversal. -/
theorem mem_jsDedupAux {x : String} :
    ∀ (l seen : List String), x ∈ jsDedupAux seen l ↔ x ∈ l ∧ x ∉ seen := by
  intro l
  induction l with
  | nil => intro seen; simp [jsDedupAux]
  | cons y ys ih =>
    intro seen
    by_cases hy : y ∈ seen
    · rw [jsDedupAux, if_pos hy, ih seen]
      constructor
      · rintro ⟨h1, h2⟩; exact ⟨by simp [h1], h2⟩
      · rintro ⟨h1, h2⟩
        rcases List.mem_cons.mp h1 with rfl | h1
        · exact absurd hy h2
        · exact ⟨h1, h2⟩
    · rw [jsDedupAux, if_neg hy]
      simp only [List.mem_cons, ih (y :: seen)]
      constructor
      · rintro (rfl | ⟨h1, h2⟩)
        · exact ⟨Or.inl rfl, hy⟩
        · exact ⟨Or.inr h1, fun hs => h2 (by simp [hs])⟩
      · rintro ⟨rfl | h1, h2⟩
        · exact Or.inl rfl
        · by_cases hxy : x = y
          · exact Or.inl hxy
          · exact Or.inr ⟨h1, by simp [hxy, h2]⟩

/-- `Array.from(new Set(xs))` contains exactly the elements of `xs`. -/
theorem mem_jsDedup {x : String} {l : List String} :
    x ∈ jsDedup l ↔ x ∈ l := by
  rw [jsDedup, mem_jsDedupAux]
  simp

/-- The dedup traversal yields a duplicate-free list. -/
theorem nodup_jsDedupAux : ∀ (l seen : List String), (jsDedupAux seen l).Nodup := by
  intro l
  induction l with
  | nil => intro seen; simp [jsDedupAux]
  | cons y ys ih =>
    intro seen
    by_cases hy : y ∈ seen
    · rw [jsDedupAux, if_pos hy]; exact ih seen
    · rw [jsDedupAux, if_neg hy]
      refine List.nodup_cons.mpr ⟨?_, ih (y :: seen)⟩
      intro hmem
      exact ((mem_jsDedupAux ys (y :: seen)).mp hmem).2 (by simp)

/-- `jsDedup` yields a duplicate-free list. -/
theorem nodup_jsDedup (l : List String) : (jsDedup l).Nodup :=
  nodup_jsDedupAux l []

/-- Deduplicating an already duplicate-free list is the identity. -/
theorem jsDedupAux_eq_self : ∀ (l seen : List String), l.Nodup →
    (∀ y ∈ l, y ∉ seen) → jsDedupAux seen l = l := by
  intro l
  induction l with
  | nil => intro seen _ _; rfl
  | cons y ys ih =>
    intro seen hnd hs
    rw [jsDedupAux, if_neg (hs y (by simp))]
    rw [ih (y :: seen) (List.nodup_cons.mp hnd).2]
    intro z hz
    simp only [List.mem_cons, not_or]
    exact ⟨fun hzy => (List.nodup_cons.mp hnd).1 (hzy ▸ hz),
      hs z (by simp [hz])⟩

/-- `jsDedup` on a duplicate-free list is the identity. -/
theorem jsDedup_eq_self {l : List String} (h : l.Nodup) : jsDedup l = l :=
  jsDedupAux_eq_self l [] h (by simp)

/-- The added element is in the set. -/
theorem mem_setAdd_self (l : List String) (x : String) : x ∈ setAdd l x := by
  unfold setAdd
  by_cases h : x ∈ l <;> simp [h]

/-- `Set.add` preserves duplicate-freeness. -/
theorem nodup_setAdd (l : List String) (x : String) (h : l.Nodup) :
    (setAdd l x).Nodup := by
  unfold setAdd
  by_cases hx : x ∈ l
  · simpa [hx]
  · rw [if_neg hx, List.nodup_append]
    refine ⟨h, List.nodup_singleton x, ?_⟩
    intro a ha hax
    simp only [List.mem_singleton] at hax
    exact hx (hax ▸ ha)

/-- `Set.add` of an already-present element is the identity. -/
theorem setAdd_of_mem {l : List String} {x : String} (h : x ∈ l) :
    setAdd l x = l := by simp [setAdd, h]

/-- Re-adding a tag to a tag set is the identity. -/
theorem setAdd_jsDedup_idem (l : List String) (t : String) :
    setAdd (jsDedup (setAdd (jsDedup l) t)) t = setAdd (jsDedup l) t := by
  rw [jsDedup_eq_self (nodup_setAdd _ _ (nodup_jsDedup l))]
  exact setAdd_of_mem (mem_setAdd_self _ _)

/-- Count of timeline events of one type. -/
def evCount (t : TimelineEventType) (tl : List TimelineEvent) : Nat :=
  (tl.filter (fun ev => ev.type = t)).length

/-- Event counting is additive across appends. -/
theorem evCount_append (t : TimelineEventType) (l1 l2 : List TimelineEvent) :
    evCount t (l1 ++ l2) = evCount t l1 + evCount t l2 := by
  simp [evCount, List.filter_append]

/-- Counting a single event. -/
theorem evCount_single (t : TimelineEventType) (e : TimelineEvent) :
    evCount t [e] = if e.type = t then 1 else 0 := by
  by_cases h : e.type = t <;> simp [evCount, h]

/-! ## Concrete fixtures -/

/-- A concrete record used by the concrete-input theorems. -/
def sampleJob : Job :=
  { id := "j1", company := "C", role := "R", status := .applied,
    appliedDate := some "", tags := [], notes := [], custom := [],
    timeline := [], createdAt := some "t0", updatedAt := some "t0" }

/-! ## Claim theorems -/

/-- Every per-command result reports the command it belongs to. -/
theorem applyOne_action (fields : List CustomField) (now : String) (s : Store)
    (a : AiAction) : (applyOne fields now s a).2.action = a := by
  cases a <;> simp only [applyOne] <;> (repeat' split) <;> rfl

/-- C1: `applyAiActions` returns exactly one result per input command, in
input order (the results' `action` fields are the input sequence itself),
and is non-aborting: processing a batch is processing its prefix and then
processing the rest from the resulting store, regardless of the prefix's
per-command successes or failures, so a failed command never prevents
subsequent commands from executing and taking effect. -/
theorem applicator_one_result_per_command_in_order_non_aborting
    (fields : List CustomField) (now : String) (st : Store)
    (actions xs ys : List AiAction) :
    ((applyAiActions actions fields now st).2.map ActionResult.action = actions)
    ∧ ((applyAiActions actions fields now st).2.length = actions.length)
    ∧ (applyAiActions (xs ++ ys) fields now st =
        ((applyAiActions ys fields now (applyAiActions xs fields now st).1).1,
          (applyAiActions xs fields now st).2 ++
            (applyAiActions ys fields now (applyAiActions xs fields now st).1).2)) := by
  have hmap : ∀ (acts : List AiAction) (s : Store),
      (applyAiActions acts fields now s).2.map ActionResult.action = acts := by
    intro acts
    induction acts with
    | nil => intro s; rfl
    | cons a rest ih =>
      intro s
      rw [applyAiActions]
      cases hap : applyOne fields now s a with
      | mk s2 r =>
        simp only [List.map_cons, List.cons.injEq]
        refine ⟨?_, ?_⟩
        · have h1 := applyOne_action fields now s a
          rw [hap] at h1
          exact h1
        · exact ih s2
  refine ⟨hmap actions st, ?_, ?_⟩
  · have := congrArg List.length (hmap actions st)
    simpa using this
  · induction xs generalizing st with
    | nil => simp [applyAiActions]
    | cons a rest ih =>
      rw [List.cons_append, applyAiActions, applyAiActions]
      cases hap : applyOne fields now st a with
      | mk s2 r =>
        simp only
        rw [ih s2]
        simp

/-- C2 (failing-input evaluation): a normalized `add_tag` command with
non-empty id and tag, applied to a store that contains the targeted record,
is reported `{ok := false, message := "Unsupported action: add_tag"}` and
leaves the store untouched — the applicator's switch lacks an `add_tag`
case, so the store's `addTag` (which, as the second conjunct shows, would
have recorded the tag) is never invoked. -/
theorem applicator_add_tag_reports_unsupported :
    (applyAiActions [.add_tag "j1" "x"] [] "t1" ⟨[sampleJob], [], 0⟩ =
      (⟨[sampleJob], [], 0⟩,
        [{ action := .add_tag "j1" "x", ok := false,
           message := "Unsupported action: add_tag" }]))
    ∧ ((addTag "j1" "x" "t1" ⟨[sampleJob], [], 0⟩).jobs.map Job.tags = [["x"]]) := by
  constructor <;> rfl

/-- C3 (failing-input evaluation): applying a normalized `add_job` command
carrying tags `["email"]` creates a record whose `tags` are empty — the
applicator omits the command's `tags` when building the `addJob` input —
whereas the store's `addJob` itself (second conjunct) stores a supplied
tags sequence verbatim. -/
theorem applicator_add_job_drops_tags :
    (((applyAiActions [.add_job "Acme" "Engineer" none none (some ["email"]) none none]
        [] "t0" ⟨[], [], 0⟩).1.jobs.map Job.tags) = [[]])
    ∧ (((addJob
          { company := "Acme", role := "Engineer", status := none,
            appliedDate := none, tags := some ["email"], notes := none,
            custom := none } "t0" ⟨[], [], 0⟩).1.jobs.map Job.tags) = [["email"]]) := by
  constructor <;> rfl

/-- C4: `addJob` prepends exactly one new record; its status defaults to
`applied` when none is supplied (and is the supplied status otherwise); its
timeline is exactly one `created` event followed by one `status_changed`
event, both timestamped at the creation instant, followed by one
`applied_date_updated` event exactly when a (non-empty, per the source's
truthiness guard) initial applied date was supplied; and its `createdAt` is
the creation instant. -/
theorem addJob_status_default_and_initial_timeline
    (input : JobInput) (now : String) (st : Store) :
    ∃ j, (addJob input now st).1.jobs = j :: st.jobs
      ∧ j.status = input.status.getD .applied
      ∧ (j.timeline.map (fun ev => (ev.type, ev.createdAt)) =
          [(.created, now), (.status_changed, now)] ++
            (match input.appliedDate with
             | some d => if d = "" then [] else [(.applied_date_updated, now)]
             | none => []))
      ∧ j.createdAt = some now := by
  cases hd : input.appliedDate with
  | none =>
    simp only [addJob, hd, createTimelineEvent, createId]
    exact ⟨_, rfl, rfl, rfl, rfl⟩
  | some d =>
    by_cases hd0 : d = ""
    · simp only [addJob, hd, hd0, if_pos, if_true, createTimelineEvent, createId]
      exact ⟨_, rfl, rfl, by simp, rfl⟩
    · simp only [addJob, hd, createTimelineEvent, createId, if_neg hd0]
      exact ⟨_, rfl, rfl, by simp [hd0], rfl⟩

/-- `setStatus` on the targeted record appends a `status_changed` event
exactly when the status differs. -/
theorem setStatusJob_event_count (job : Job) (status : JobStatus)
    (now : String) (c : Nat) :
    evCount .status_changed ((setStatusJob job.id status now c job).1).timeline =
      evCount .status_changed job.timeline +
        (if job.status = status then 0 else 1) := by
  unfold setStatusJob
  by_cases h : job.status = status
  · simp [h]
  · simp [h, createTimelineEvent, createId, evCount_append, evCount_single]

/-- `setStatus` leaves the targeted record untouched when the status is
unchanged, and sets it (with refreshed `updatedAt`) otherwise. -/
theorem setStatusJob_status (job : Job) (status : JobStatus)
    (now : String) (c : Nat) :
    ((setStatusJob job.id status now c job).1).status = status := by
  unfold setStatusJob
  by_cases h : job.status = status
  · simp [h]
  · simp [h, createTimelineEvent, createId]

/-- Repeating `setStatus` with the same status is a no-op the second time. -/
theorem setStatusJob_idem (job : Job) (status : JobStatus) (now : String)
    (c c' : Nat) :
    setStatusJob job.id status now c' ((setStatusJob job.id status now c job).1) =
      ((setStatusJob job.id status now c job).1, c') := by
  have hid : ((setStatusJob job.id status now c job).1).id = job.id := by
    unfold setStatusJob
    by_cases h : job.status = status <;>
      simp [h, createTimelineEvent, createId]
  have hst := setStatusJob_status job status now c
  obtain ⟨j2, hg⟩ : ∃ j2, (setStatusJob job.id status now c job).1 = j2 := ⟨_, rfl⟩
  rw [hg] at hid hst ⊢
  unfold setStatusJob
  rw [if_neg (show ¬(j2.id ≠ job.id) by simp [hid]), if_pos hst]

/-- `addTag` on the targeted record appends a `tag_added` event exactly when
the tag was not already present. -/
theorem addTagJob_event_count (job : Job) (tag : String) (now : String)
    (c : Nat) :
    evCount .tag_added ((addTagJob job.id tag now c job).1).timeline =
      evCount .tag_added job.timeline + (if tag ∈ job.tags then 0 else 1) := by
  unfold addTagJob
  by_cases h : tag ∈ job.tags
  · simp [h]
  · simp [h, createTimelineEvent, createId, evCount_append, evCount_single]

/-- After `addTag`, the tag occurs exactly once on the record. -/
theorem addTagJob_count_one (job : Job) (tag : String) (now : String)
    (c : Nat) : ((addTagJob job.id tag now c job).1).tags.count tag = 1 := by
  have htags : ((addTagJob job.id tag now c job).1).tags =
      setAdd (jsDedup job.tags) tag := by
    unfold addTagJob
    by_cases h : tag ∈ job.tags <;> simp [h, createTimelineEvent, createId]
  rw [htags]
  exact List.count_eq_one_of_mem
    (nodup_setAdd _ _ (nodup_jsDedup job.tags)) (mem_setAdd_self _ _)

/-- The record fields after `addTag` on the targeted record. -/
theorem addTagJob_fields (job : Job) (tag : String) (now : String) (c : Nat) :
    ((addTagJob job.id tag now c job).1).id = job.id ∧
      ((addTagJob job.id tag now c job).1).tags = setAdd (jsDedup job.tags) tag ∧
      ((addTagJob job.id tag now c job).1).updatedAt = some now := by
  unfold addTagJob
  by_cases h : tag ∈ job.tags <;> simp [h, createTimelineEvent, createId]

/-- Repeating `addTag` with the same tag (at the same instant) is a no-op
the second time: no new event, tag set unchanged. -/
theorem addTagJob_idem (job : Job) (tag : String) (now : String)
    (c c' : Nat) :
    addTagJob job.id tag now c' ((addTagJob job.id tag now c job).1) =
      ((addTagJob job.id tag now c job).1, c') := by
  obtain ⟨hid, htags, hupd⟩ := addTagJob_fields job tag now c
  obtain ⟨j2, hg⟩ : ∃ j2, (addTagJob job.id tag now c job).1 = j2 := ⟨_, rfl⟩
  rw [hg] at hid htags hupd ⊢
  have hmem : tag ∈ j2.tags := by rw [htags]; exact mem_setAdd_self _ _
  have htags2 : setAdd (jsDedup j2.tags) tag = j2.tags := by
    rw [htags]; exact setAdd_jsDedup_idem _ _
  unfold addTagJob
  simp only [if_neg (show ¬(j2.id ≠ job.id) by simp [hid]), if_pos hmem, htags2]
  rw [← hupd]

/-- `updateJob` on the targeted record appends a `status_changed` event
exactly when a status is supplied and differs from the current one. -/
theorem updateJobJob_status_count (job : Job) (input : JobUpdate)
    (now : String) (c : Nat) :
    evCount .status_changed ((updateJobJob job.id input now c job).1).timeline =
      evCount .status_changed job.timeline +
        (match input.status with
         | some stn => if stn = job.status then 0 else 1
         | none => 0) := by
  unfold updateJobJob
  cases hs : input.status with
  | none =>
    cases ha : input.appliedDate with
    | none => simp [hs, ha]
    | some d =>
      by_cases hd : some d ≠ job.appliedDate <;>
        simp [hs, ha, hd, createTimelineEvent, createId, evCount_append,
          evCount_single]
  | some stn =>
    by_cases hne : stn ≠ job.status
    · cases ha : input.appliedDate with
      | none =>
        simp [hs, ha, hne, createTimelineEvent, createId, evCount_append,
          evCount_single]
      | some d =>
        by_cases hd : some d ≠ job.appliedDate <;>
          simp [hs, ha, hne, hd, createTimelineEvent, createId, evCount_append,
            evCount_single, evCount, List.filter]
    · cases ha : input.appliedDate with
      | none => simp [hs, ha, hne]
      | some d =>
        by_cases hd : some d ≠ job.appliedDate <;>
          simp [hs, ha, hne, hd, createTimelineEvent, createId, evCount_append,
            evCount_single, evCount, List.filter]

/-- `updateJob` on the targeted record appends an `applied_date_updated`
event exactly when an applied date is supplied and actually changes. -/
theorem updateJobJob_applied_count (job : Job) (input : JobUpdate)
    (now : String) (c : Nat) :
    evCount .applied_date_updated ((updateJobJob job.id input now c job).1).timeline =
      evCount .applied_date_updated job.timeline +
        (match input.appliedDate with
         | some d => if some d = job.appliedDate then 0 else 1
         | none => 0) := by
  unfold updateJobJob
  cases hs : input.status with
  | none =>
    cases ha : input.appliedDate with
    | none => simp [hs, ha]
    | some d =>
      by_cases hd : some d = job.appliedDate <;>
        simp [hs, ha, hd, createTimelineEvent, createId, evCount_append,
          evCount_single]
  | some stn =>
    by_cases hne : stn ≠ job.status
    · cases ha : input.appliedDate with
      | none =>
        simp [hs, ha, hne, createTimelineEvent, createId, evCount_append,
          evCount_single]
      | some d =>
        by_cases hd : some d = job.appliedDate <;>
          simp [hs, ha, hne, hd, createTimelineEvent, createId, evCount_append,
            evCount_single, evCount, List.filter]
    · cases ha : input.appliedDate with
      | none => simp [hs, ha, hne]
      | some d =>
        by_cases hd : some d = job.appliedDate <;>
          simp [hs, ha, hne, hd, createTimelineEvent, createId, evCount_append,
            evCount_single, evCount, List.filter]

/-- C5: per mutating operation on a record — `status_changed` is appended
iff the new status differs (`setStatus` and `updateJob`),
`applied_date_updated` iff the applied date actually changes, `tag_added`
iff the tag value is not yet on the record; after `addTag` the tag is
present exactly once; and repeating `setStatus` with the same status or
`addTag` with the same tag is a no-op the second time (no additional
event, record unchanged). -/
theorem mutators_append_events_iff_changed (job : Job) (status : JobStatus)
    (tag : String) (input : JobUpdate) (now : String) (c c' : Nat) :
    (evCount .status_changed ((setStatusJob job.id status now c job).1).timeline =
        evCount .status_changed job.timeline +
          (if job.status = status then 0 else 1))
    ∧ (evCount .status_changed ((updateJobJob job.id input now c job).1).timeline =
        evCount .status_changed job.timeline +
          (match input.status with
           | some stn => if stn = job.status then 0 else 1
           | none => 0))
    ∧ (evCount .applied_date_updated
          ((updateJobJob job.id input now c job).1).timeline =
        evCount .applied_date_updated job.timeline +
          (match input.appliedDate with
           | some d => if some d = job.appliedDate then 0 else 1
           | none => 0))
    ∧ (evCount .tag_added ((addTagJob job.id tag now c job).1).timeline =
        evCount .tag_added job.timeline + (if tag ∈ job.tags then 0 else 1))
    ∧ (((addTagJob job.id tag now c job).1).tags.count tag = 1)
    ∧ (setStatusJob job.id status now c' ((setStatusJob job.id status now c job).1) =
        ((setStatusJob job.id status now c job).1, c'))
    ∧ (addTagJob job.id tag now c' ((addTagJob job.id tag now c job).1) =
        ((addTagJob job.id tag now c job).1, c')) :=
  ⟨setStatusJob_event_count job status now c,
    updateJobJob_status_count job input now c,
    updateJobJob_applied_count job input now c,
    addTagJob_event_count job tag now c,
    addTagJob_count_one job tag now c,
    setStatusJob_idem job status now c c',
    addTagJob_idem job tag now c c'⟩

/-- C8: every record-level mutator invoked with an id bound to no record in
the collection is a silent no-op: the store (records, schema and identifier
supply alike) is returned unchanged, and in particular every existing
record is untouched. -/
theorem mutators_noop_on_missing_id (st : Store) (id : String)
    (h : ∀ j ∈ st.jobs, j.id ≠ id)
    (input : JobUpdate) (status : JobStatus) (tag note : String)
    (noteOpt : Option String) (fieldId : String) (value : CustomValue)
    (now : String) :
    updateJob id input now st = st
    ∧ setStatus id status now st = st
    ∧ addTag id tag now st = st
    ∧ addNote id note now st = st
    ∧ setNote id noteOpt now st = st
    ∧ setCustomFieldValue id fieldId value now st = st
    ∧ deleteJob id st = st := by
  refine ⟨?_, ?_, ?_, ?_, ?_, ?_, ?_⟩
  · unfold updateJob
    rw [mapCounter_eq_self (fun c j hj => by simp [updateJobJob, h j hj])]
  · unfold setStatus
    rw [mapCounter_eq_self (fun c j hj => by simp [setStatusJob, h j hj])]
  · unfold addTag
    rw [mapCounter_eq_self (fun c j hj => by simp [addTagJob, h j hj])]
  · unfold addNote
    rw [map_eq_self_of (fun j hj => by simp [addNoteJob, h j hj])]
  · unfold setNote
    rw [map_eq_self_of (fun j hj => by simp [setNoteJob, h j hj])]
  · unfold setCustomFieldValue
    rw [mapCounter_eq_self (fun c j hj => by simp [setCustomFieldValueJob, h j hj])]
  · unfold deleteJob
    rw [List.filter_eq_self.mpr (fun j hj => by simp [h j hj])]

/-- Witness for C8 at a concrete store and missing id. -/
theorem mutators_noop_on_missing_id_witness :
    updateJob "zzz" ⟨none, none, none, none, none, none, none⟩ "t1"
        ⟨[sampleJob], [], 0⟩ = ⟨[sampleJob], [], 0⟩
    ∧ setStatus "zzz" .offer "t1" ⟨[sampleJob], [], 0⟩ = ⟨[sampleJob], [], 0⟩
    ∧ addTag "zzz" "x" "t1" ⟨[sampleJob], [], 0⟩ = ⟨[sampleJob], [], 0⟩
    ∧ addNote "zzz" "n" "t1" ⟨[sampleJob], [], 0⟩ = ⟨[sampleJob], [], 0⟩
    ∧ setNote "zzz" (some "n") "t1" ⟨[sampleJob], [], 0⟩ = ⟨[sampleJob], [], 0⟩
    ∧ setCustomFieldValue "zzz" "f" (.str "v") "t1" ⟨[sampleJob], [], 0⟩ =
        ⟨[sampleJob], [], 0⟩
    ∧ deleteJob "zzz" ⟨[sampleJob], [], 0⟩ = ⟨[sampleJob], [], 0⟩ :=
  mutators_noop_on_missing_id ⟨[sampleJob], [], 0⟩ "zzz" (by decide)
    ⟨none, none, none, none, none, none, none⟩ .offer "x" "n" (some "n") "f"
    (.str "v") "t1"

/-- C9: on the targeted record, every mutator that changes the record
refreshes `updatedAt` to the operation instant — `updateJob`, `addTag`,
`addNote`, `setNote` and `setCustomFieldValue` always do; `setStatus`
either leaves the record entirely untouched (unchanged status: the
operation mutates nothing) or refreshes it — and no mutator ever changes
`createdAt`. -/
theorem mutators_refresh_updatedAt_preserve_createdAt (job : Job)
    (status : JobStatus) (input : JobUpdate) (tag note : String)
    (noteOpt : Option String) (fieldId : String) (value : CustomValue)
    (now : String) (c : Nat) :
    (((setStatusJob job.id status now c job).1).createdAt = job.createdAt)
    ∧ (((updateJobJob job.id input now c job).1).createdAt = job.createdAt)
    ∧ (((addTagJob job.id tag now c job).1).createdAt = job.createdAt)
    ∧ ((addNoteJob job.id note now job).createdAt = job.createdAt)
    ∧ ((setNoteJob job.id noteOpt now job).createdAt = job.createdAt)
    ∧ (((setCustomFieldValueJob job.id fieldId value now c job).1).createdAt =
        job.createdAt)
    ∧ (((updateJobJob job.id input now c job).1).updatedAt = some now)
    ∧ (((addTagJob job.id tag now c job).1).updatedAt = some now)
    ∧ ((addNoteJob job.id note now job).updatedAt = some now)
    ∧ ((setNoteJob job.id noteOpt now job).updatedAt = some now)
    ∧ (((setCustomFieldValueJob job.id fieldId value now c job).1).updatedAt =
        some now)
    ∧ ((setStatusJob job.id status now c job).1 = job
        ∨ ((setStatusJob job.id status now c job).1).updatedAt = some now) := by
  refine ⟨?_, ?_, ?_, ?_, ?_, ?_, ?_, ?_, ?_, ?_, ?_, ?_⟩
  · unfold setStatusJob
    by_cases h : job.status = status <;>
      simp [h, createTimelineEvent, createId]
  · unfold updateJobJob
    rw [if_neg (show ¬(job.id ≠ job.id) by simp)]
  · unfold addTagJob
    by_cases h : tag ∈ job.tags <;> simp [h, createTimelineEvent, createId]
  · simp [addNoteJob]
  · simp [setNoteJob]
  · simp [setCustomFieldValueJob, createTimelineEvent, createId]
  · unfold updateJobJob
    rw [if_neg (show ¬(job.id ≠ job.id) by simp)]
  · exact (addTagJob_fields job tag now c).2.2
  · simp [addNoteJob]
  · simp [setNoteJob]
  · simp [setCustomFieldValueJob, createTimelineEvent, createId]
  · unfold setStatusJob
    by_cases h : job.status = status
    · left; simp [h]
    · right; simp [h, createTimelineEvent, createId]

/-- A string naming a command kind is not the literal `"type"`. -/
theorem kindOfString_ne_type {s : String} {k : AKind}
    (h : kindOfString s = some k) : s ≠ "type" := by
  intro he
  rw [he] at h
  simp [kindOfString] at h

/-- Per-kind sanitization never reads the `type` binding, so a `type`
binding in front of the fields is invisible to it. -/
theorem sanitizeAction_ignore_type (k : AKind) (v : Json)
    (payload : List (String × Json)) :
    sanitizeAction k (("type", v) :: payload) = sanitizeAction k payload := by
  have hg : ∀ key : String, ("type" : String) ≠ key →
      getField (("type", v) :: payload) key = getField payload key := by
    intro key h
    cases hx : getField payload key <;> simp [getField, hx, h]
  cases k <;>
    simp only [sanitizeAction, hg "company" (by decide), hg "role" (by decide),
      hg "status" (by decide), hg "appliedDate" (by decide),
      hg "tags" (by decide), hg "notes" (by decide), hg "custom" (by decide),
      hg "id" (by decide), hg "tag" (by decide), hg "note" (by decide),
      hg "name" (by decide), hg "fieldType" (by decide)]

/-- Counterexample for C6 as stated: the candidate `{"type": "add_job"}`
carries an explicit `type` field naming one of the seven kinds (shape (a)),
yet the normalizer excludes it — per-kind validation drops it for missing
company/role — so shape-matching is not sufficient for acceptance. -/
theorem shape_match_not_sufficient :
    shapeA (.obj [("type", Json.str "add_job")])
      ∧ normalizeAction (.obj [("type", Json.str "add_job")]) = none :=
  ⟨⟨[("type", Json.str "add_job")], "add_job", rfl, rfl, rfl⟩, rfl⟩

/-- The concrete end-to-end payload of the single-key-wrapper scenario. -/
def acmeWrapperPayload : Json :=
  Json.obj [("actions", Json.arr [Json.obj [("add_job",
    Json.obj [("company", Json.str "Acme"), ("role", Json.str "Engineer"),
      ("status", Json.str "applied")])]])]

/-- C6 (amended): a candidate is included in the normalized output only if
it matches shape (a) (explicit `type` naming a kind) or shape (b)
(single-key object whose key names a kind) — anything matching neither is
excluded; a single-key wrapper whose payload carries no `type` field
normalizes exactly as the corresponding explicit-`type` candidate; and the
wrapper payload `{"actions":[{"add_job":{company, role, status}}]}`
normalizes to the one corresponding `add_job` command. -/
theorem normalizer_shape_matching
    (raw : Json) (kname : String) (k : AKind) (payload : List (String × Json))
    (hk : kindOfString kname = some k)
    (hno : getField payload "type" = none) :
    ((normalizeAction raw).isSome = true → shapeA raw ∨ shapeB raw)
    ∧ (normalizeAction (.obj [(kname, .obj payload)]) =
        normalizeAction (.obj (("type", .str kname) :: payload)))
    ∧ (normalizeAiResponse acmeWrapperPayload =
        { summary := none,
          actions := [.add_job "Acme" "Engineer" (some .applied) none none none none] }) := by
  refine ⟨?_, ?_, by rfl⟩
  · intro h
    cases raw with
    | obj fields =>
      simp only [normalizeAction] at h
      cases hd : (directTypeOf fields).bind kindOfString with
      | some k2 =>
        rcases Option.bind_eq_some.mp hd with ⟨t, ht, hkt⟩
        exact Or.inl ⟨fields, t, rfl, ht, by simp [hkt]⟩
      | none =>
        rw [hd] at h
        right
        cases hkeys : jsDedup (fields.map Prod.fst) with
        | nil => simp [singleKeyShape, hkeys] at h
        | cons k0 rest =>
          cases rest with
          | nil =>
            cases hko : kindOfString k0 with
            | none => simp [singleKeyShape, hkeys, hko] at h
            | some k3 => exact ⟨fields, k0, rfl, hkeys, by simp [hko]⟩
          | cons b bs => simp [singleKeyShape, hkeys] at h
    | null => simp [normalizeAction] at h
    | bool b => simp [normalizeAction] at h
    | num n => simp [normalizeAction] at h
    | str s => simp [normalizeAction] at h
    | arr es => simp [normalizeAction] at h
  · have hne := kindOfString_ne_type hk
    have hlhs : normalizeAction (.obj [(kname, .obj payload)]) =
        sanitizeAction k payload := by
      have h1 : directTypeOf [(kname, Json.obj payload)] = none := by
        simp [directTypeOf, getField, hne]
      have h2 : jsDedup ([(kname, Json.obj payload)].map Prod.fst) = [kname] := by
        simp [jsDedup, jsDedupAux]
      have h3 : getField [(kname, Json.obj payload)] kname =
          some (Json.obj payload) := by simp [getField]
      simp only [normalizeAction, h1, Option.none_bind, singleKeyShape, h2, hk,
        h3, removeKey_of_none hno]
    have hrhs : normalizeAction (.obj (("type", .str kname) :: payload)) =
        sanitizeAction k payload := by
      have h4 : getField (("type", Json.str kname) :: payload) "type" =
          some (Json.str kname) := by simp [getField, hno]
      simp only [normalizeAction, directTypeOf, h4, Option.some_bind, hk]
      exact sanitizeAction_ignore_type k (Json.str kname) payload
    rw [hlhs, hrhs]

/-- Witness for C6 at the scenario's wrapper candidate. -/
theorem normalizer_shape_matching_witness :
    normalizeAction (.obj [("add_job",
        .obj [("company", Json.str "Acme"), ("role", Json.str "Engineer"),
          ("status", Json.str "applied")])]) =
      normalizeAction (.obj [("type", Json.str "add_job"),
        ("company", Json.str "Acme"), ("role", Json.str "Engineer"),
        ("status", Json.str "applied")]) :=
  (normalizer_shape_matching (Json.null) "add_job" .add_job
    [("company", Json.str "Acme"), ("role", Json.str "Engineer"),
      ("status", Json.str "applied")] rfl rfl).2.1

/-- C7: per-kind validation — a `set_status` candidate survives exactly when
both a non-empty id and a recognized status are present (and a status string
is recognized exactly when it is one of the six known values, so
`"promoted"` yields no command); an `add_custom_field` candidate with a
non-empty name always survives, with its field type falling back to `text`
when missing, non-string or unrecognized; and an `add_job` candidate
survives exactly when company and role are both non-empty after trimming. -/
theorem per_kind_validation
    (fields fields2 fields3 : List (String × Json)) (s s2 s3 : String)
    (name : String)
    (hname : toText (getField fields2 "name") = some name)
    (hs3 : fieldTypeOfString s3 = none) :
    ((sanitizeAction .set_status fields).isSome = true ↔
      ((toText (getField fields "id")).isSome = true ∧
        (toStatus (getField fields "status")).isSome = true))
    ∧ ((statusOfString s).isSome = true ↔ s ∈ STATUS_STRINGS)
    ∧ (sanitizeAction .set_status
        [("id", Json.str "j1"), ("status", Json.str "promoted")] = none)
    ∧ (sanitizeAction .add_custom_field fields2 =
        some (.add_custom_field name
          (fieldTypeOrText (getField fields2 "fieldType"))))
    ∧ (fieldTypeOrText none = .text)
    ∧ (fieldTypeOrText (some (.str s3)) = .text)
    ∧ ((sanitizeAction .add_job fields3).isSome = true ↔
      ((toText (getField fields3 "company")).isSome = true ∧
        (toText (getField fields3 "role")).isSome = true))
    ∧ ((toText (some (.str s2))).isSome = true ↔ jsTrim s2 ≠ "") := by
  refine ⟨?_, ?_, by rfl, ?_, rfl, ?_, ?_, ?_⟩
  · unfold sanitizeAction
    cases hi : toText (getField fields "id") <;>
      cases hst : toStatus (getField fields "status") <;> simp
  · constructor
    · intro h
      unfold statusOfString at h
      split at h <;> simp_all [STATUS_STRINGS]
    · intro h
      simp only [STATUS_STRINGS, List.mem_cons, List.mem_singleton] at h
      rcases h with h | h | h | h | h | h | h <;> first | (subst h; rfl) | simp at h
  · unfold sanitizeAction
    rw [hname]
  · simp only [fieldTypeOrText, hs3]
    rfl
  · unfold sanitizeAction
    cases hc : toText (getField fields3 "company") <;>
      cases hr : toText (getField fields3 "role") <;> simp
  · unfold toText
    by_cases h : jsTrim s2 = "" <;> simp [h]

/-- Witness for C7 at concrete candidates. -/
theorem per_kind_validation_witness :
    sanitizeAction .add_custom_field
        [("name", Json.str "Source"), ("fieldType", Json.str "bogus")] =
      some (.add_custom_field "Source" .text) :=
  (per_kind_validation [] [("name", Json.str "Source"),
      ("fieldType", Json.str "bogus")] [] "applied" "x" "bogus" "Source"
    rfl rfl).2.2.2.1

/-- C10: rehydration is total and tolerant — an absent or unparsable records
document, or one parsing to a non-array, loads as the empty collection, and
every element loaded from a parsed array has its `timeline` normalized to an
array; an absent or unparsable schema document loads as the empty field
list, and a parsed one yields its `customFields` member exactly when that is
an array and the empty list otherwise. -/
theorem load_total_and_tolerant (doc : StoredDoc) (j j2 : Json) :
    ((loadJobsM doc).all jobHasArrayTimeline = true)
    ∧ (loadJobsM .absent = []) ∧ (loadJobsM .unparsable = [])
    ∧ (jsIsArray j = true ∨ loadJobsM (.parsed j) = [])
    ∧ (loadSchemaM .absent = []) ∧ (loadSchemaM .unparsable = [])
    ∧ ((∃ es, jsGet j2 "customFields" = some (.arr es) ∧
          loadSchemaM (.parsed j2) = es)
        ∨ loadSchemaM (.parsed j2) = []) := by
  refine ⟨?_, rfl, rfl, ?_, rfl, rfl, ?_⟩
  · cases doc with
    | absent => rfl
    | unparsable => rfl
    | parsed v =>
      cases v with
      | arr elems =>
        rw [loadJobsM, List.all_eq_true]
        intro x hx
        rcases List.mem_map.mp hx with ⟨e, he, rfl⟩
        simp [jobHasArrayTimeline, jsGet, getField_objUpd]
      | null => rfl
      | bool b => rfl
      | num n => rfl
      | str s => rfl
      | obj fs => rfl
  · cases j with
    | arr es => exact Or.inl rfl
    | null => exact Or.inr rfl
    | bool b => exact Or.inr rfl
    | num n => exact Or.inr rfl
    | str s => exact Or.inr rfl
    | obj fs => exact Or.inr rfl
  · cases hc : jsGet j2 "customFields" with
    | none => exact Or.inr (by simp [loadSchemaM, hc])
    | some v =>
      cases v with
      | arr es => exact Or.inl ⟨es, rfl, by simp [loadSchemaM, hc]⟩
      | null => exact Or.inr (by simp [loadSchemaM, hc])
      | bool b => exact Or.inr (by simp [loadSchemaM, hc])
      | num n => exact Or.inr (by simp [loadSchemaM, hc])
      | str s => exact Or.inr (by simp [loadSchemaM, hc])
      | obj fs => exact Or.inr (by simp [loadSchemaM, hc])

end AppTracker
